import Mathlib

set_option maxHeartbeats 1000000

/-!
Verification development for the tic-tac-toe program in `src/main.rs`.

The program is shallowly embedded: the board is a `List Square` (the Rust
`Vec<Square>`), machine integers `i32`/`u32`/`usize` are modelled as `Int`/`Nat`
(all arithmetic in the program stays far from the overflow boundaries, and the
`x as u32` cast in `get_square_from_coords` happens only after `x > 0` has been
checked, so it is value-preserving), and the main loop body is modelled as a
`tick` step function over a loop state that carries the game state together
with the SDL event queue.  Panicking `Vec` indexing is modelled with
`List.getD`; every index the program actually uses is proved in bounds.
-/

/-- The Rust enum `Square { X, O, Empty }`. -/
inductive Square
  | X
  | O
  | Empty
deriving DecidableEq

/-- Rust `const BORDER_THICKNESS: i32 = 20`. -/
def BORDER_THICKNESS : Int := 20

/-- Rust `const WINDOW_SIZE: u32 = 680`. -/
def WINDOW_SIZE : Nat := 680

/-- Rust `const PLAYING_AREA_OFFSET: u32 = BORDER_THICKNESS as u32 * 2`. -/
def PLAYING_AREA_OFFSET : Nat := BORDER_THICKNESS.toNat * 2

/-- Rust `const PLAYING_AREA_SIZE: u32 = WINDOW_SIZE - (PLAYING_AREA_OFFSET * 2)`. -/
def PLAYING_AREA_SIZE : Nat := WINDOW_SIZE - PLAYING_AREA_OFFSET * 2

/-- Rust `const SQUARES: u32 = 4`. -/
def SQUARES : Nat := 4

/-- Rust `const SQUARE_SIZE: u32 = PLAYING_AREA_SIZE / SQUARES`. -/
def SQUARE_SIZE : Nat := PLAYING_AREA_SIZE / SQUARES

/-- Rust `const FILL_IN: u32 = PLAYING_AREA_SIZE - (SQUARE_SIZE * SQUARES)`. -/
def FILL_IN : Nat := PLAYING_AREA_SIZE - SQUARE_SIZE * SQUARES

/-- Rust `const NEW_GAME_TIMEOUT: u64 = 2` (seconds between games). -/
def NEW_GAME_TIMEOUT : Nat := 2

/-- The board: the Rust `Vec<Square>` of length `SQUARES * SQUARES`. -/
abbrev Board := List Square

/-- Rust `get_square_flatten_index`: `&squares[(row * SQUARES as usize) + col]`.
The panicking `Vec` index is modelled with `getD`; all uses are in bounds on
length-16 boards. -/
def get_square_flatten_index (squares : Board) (row col : Nat) : Square :=
  squares.getD (row * SQUARES + col) Square.Empty

/-- First element of `STRAIGHT_LINE_LAMBDAS`: `|constant, i| (constant, i)`. -/
def rowLam : Nat → Nat → Nat × Nat := fun c i => (c, i)

/-- Second element of `STRAIGHT_LINE_LAMBDAS`: `|constant, i| (i, constant)`. -/
def colLam : Nat → Nat → Nat × Nat := fun c i => (i, c)

/-- First element of `DIAGONAL_LINE_LAMBDAS`: `|_, i| (i, i)`. -/
def diagLam : Nat → Nat → Nat × Nat := fun _ i => (i, i)

/-- Second element of `DIAGONAL_LINE_LAMBDAS`: `|_, i| (SQUARES as usize - i - 1, i)`. -/
def antiLam : Nat → Nat → Nat × Nat := fun _ i => (SQUARES - i - 1, i)

/-- Take the first populated option: `firstSome a b` is `a` unless `a` is
`none`, in which case it is `b`.  This is the early-return shape of the scan
loops in `get_winner`. -/
def firstSome (a b : Option Square) : Option Square :=
  match a with
  | some w => some w
  | none => b

/-- Rust `const STRAIGHT_LINE_LAMBDAS`. -/
def STRAIGHT_LINE_LAMBDAS : List (Nat → Nat → Nat × Nat) := [rowLam, colLam]

/-- Rust `const DIAGONAL_LINE_LAMBDAS`. -/
def DIAGONAL_LINE_LAMBDAS : List (Nat → Nat → Nat × Nat) := [diagLam, antiLam]

/-- Rust `line_winner`: the first cell of the line is `get_square(constant, 0)`;
if it is `Empty` the line has no winner; otherwise the loop
`for i in 1..SQUARES` returns `None` as soon as some cell of the line differs
from the first one, and `Some(first cell)` if the loop completes. -/
def line_winner (squares : Board) (get_square : Nat → Nat → Nat × Nat) (c : Nat) :
    Option Square :=
  if get_square_flatten_index squares (get_square c 0).1 (get_square c 0).2 = Square.Empty then
    none
  else if ∀ i, i < SQUARES → 1 ≤ i →
      get_square_flatten_index squares (get_square c i).1 (get_square c i).2 =
        get_square_flatten_index squares (get_square c 0).1 (get_square c 0).2 then
    some (get_square_flatten_index squares (get_square c 0).1 (get_square c 0).2)
  else
    none

/-- Rust `get_winner`: `for i in 0..SQUARES { for lambda in STRAIGHT_LINE_LAMBDAS
{ .. return early .. } }`, then the same over `DIAGONAL_LINE_LAMBDAS` with
constant `0`, then `None`.  The early returns are the first `some` found, i.e.
`List.findSome?`. -/
def get_winner (squares : Board) : Option Square :=
  firstSome
    ((List.range SQUARES).findSome?
      (fun i => STRAIGHT_LINE_LAMBDAS.findSome? (fun lam => line_winner squares lam i)))
    (DIAGONAL_LINE_LAMBDAS.findSome? (fun lam => line_winner squares lam 0))

/-- Rust `get_square_from_coords`: shift into playing-area coordinates, reject
coordinates outside `(0, SQUARE_SIZE * SQUARES)` in either axis, otherwise
integer-divide by `SQUARE_SIZE` (the `x as u32` cast is `Int.toNat`, applied
after `0 < x` was checked). -/
def get_square_from_coords (x y : Int) : Option Nat :=
  let x' := x - (PLAYING_AREA_OFFSET : Int)
  let y' := y - (PLAYING_AREA_OFFSET : Int)
  if x' ≤ 0 ∨ y' ≤ 0 ∨ ((SQUARE_SIZE * SQUARES : Nat) : Int) ≤ x' ∨
      ((SQUARE_SIZE * SQUARES : Nat) : Int) ≤ y' then
    none
  else
    some (y'.toNat / SQUARE_SIZE * SQUARES + x'.toNat / SQUARE_SIZE)

/-- Rust `struct GameState`.  `Instant` is modelled as a `Nat` timestamp. -/
structure GameState where
  freeze_until : Option Nat
  squares : Board
  turn : Bool
deriving DecidableEq

/-- Rust `impl Default for GameState`. -/
def GameState.default : GameState :=
  ⟨none, List.replicate (SQUARES * SQUARES) Square.Empty, true⟩

/-- The SDL events the main loop consumes: `Quit`, `KeyDown(Escape)`,
`MouseButtonDown(Left, x, y)`, and everything else (`_ => {}`). -/
inductive Event
  | Quit
  | KeyEscape
  | LeftClick (x y : Int)
  | Other
deriving DecidableEq

/-- The body of the `MouseButtonDown` arm of `main` once a square index is
known: `if state.squares[square] == Square::Empty { state.squares[square] =
if state.turn { X } else { O }; state.turn = !state.turn; }`  (the spec calls
this operation `apply_move`). -/
def apply_move (square : Nat) (s : GameState) : GameState :=
  if s.squares.getD square Square.Empty = Square.Empty then
    { s with
        squares := s.squares.set square (if s.turn then Square.X else Square.O),
        turn := !s.turn }
  else
    s

/-- The full `MouseButtonDown { mouse_btn: Left, x, y }` arm of `main`:
`if let Some(square) = get_square_from_coords(x, y) { .. }`. -/
def applyClick (x y : Int) (s : GameState) : GameState :=
  match get_square_from_coords x y with
  | some square => apply_move square s
  | none => s

/-- The `for event in event_pump.poll_iter()` dispatch loop of `main` in the
`Active` branch; `none` means the `return` on `Quit`/`Escape` was hit. -/
def processEvents : List Event → GameState → Option GameState
  | [], s => some s
  | e :: rest, s =>
    match e with
    | Event.Quit => none
    | Event.KeyEscape => none
    | Event.LeftClick x y => processEvents rest (applyClick x y s)
    | Event.Other => processEvents rest s

/-- The post-dispatch outcome check of `main`: on a winner, or on a full board
(`!squares.iter().any(|s| *s == Square::Empty)`), call `endgame`, which sets
`freeze_until = Some(now + NEW_GAME_TIMEOUT)`. -/
def endgameCheck (now : Nat) (s : GameState) : GameState :=
  match get_winner s.squares with
  | some _ => { s with freeze_until := some (now + NEW_GAME_TIMEOUT) }
  | none =>
    if s.squares.all (fun sq => decide (sq ≠ Square.Empty)) then
      { s with freeze_until := some (now + NEW_GAME_TIMEOUT) }
    else
      s

/-- The loop state: the game state plus the SDL event queue contents.  Events
delivered while the program does not call `poll_iter` stay in the queue. -/
structure LoopState where
  game : GameState
  queue : List Event
deriving DecidableEq

/-- One iteration of the `loop` in `main`.  `arrivals` are the events newly
delivered since the previous iteration (appended to the pending queue), `now`
is `Instant::now()` for this iteration, and the result is `none` when the
program `return`s.  In the frozen branch: on expiry the state is replaced by
`GameState::default()` and nothing is polled (the pending events stay in the
queue); otherwise `poll_iter` drains the queue.  In the active branch all
pending events are dispatched and then the outcome check runs. -/
def tick (now : Nat) (arrivals : List Event) (ls : LoopState) : Option LoopState :=
  match ls.game.freeze_until with
  | some t =>
    if t < now then
      some ⟨GameState.default, ls.queue ++ arrivals⟩
    else
      some ⟨ls.game, []⟩
  | none =>
    match processEvents (ls.queue ++ arrivals) ls.game with
    | none => none
    | some s => some ⟨endgameCheck now s, []⟩

/-- Spec-side predicate: row `r` is entirely marked `p`. -/
def rowWonBy (b : Board) (r : Nat) (p : Square) : Prop :=
  ∀ i, i < SQUARES → get_square_flatten_index b r i = p

/-- Spec-side predicate: column `c` is entirely marked `p`. -/
def colWonBy (b : Board) (c : Nat) (p : Square) : Prop :=
  ∀ i, i < SQUARES → get_square_flatten_index b i c = p

/-- Spec-side predicate: the main diagonal is entirely marked `p`. -/
def diagWonBy (b : Board) (p : Square) : Prop :=
  ∀ i, i < SQUARES → get_square_flatten_index b i i = p

/-- Spec-side predicate: the anti-diagonal is entirely marked `p`. -/
def antiDiagWonBy (b : Board) (p : Square) : Prop :=
  ∀ i, i < SQUARES → get_square_flatten_index b (SQUARES - i - 1) i = p

/-- Spec-side predicate: some row, some column, or one of the two diagonals is
entirely marked `p`. -/
def wonBy (b : Board) (p : Square) : Prop :=
  (∃ r, r < SQUARES ∧ rowWonBy b r p) ∨ (∃ c, c < SQUARES ∧ colWonBy b c p) ∨
    diagWonBy b p ∨ antiDiagWonBy b p

instance (b : Board) (r : Nat) (p : Square) : Decidable (rowWonBy b r p) := by
  unfold rowWonBy; infer_instance

instance (b : Board) (c : Nat) (p : Square) : Decidable (colWonBy b c p) := by
  unfold colWonBy; infer_instance

instance (b : Board) (p : Square) : Decidable (diagWonBy b p) := by
  unfold diagWonBy; infer_instance

instance (b : Board) (p : Square) : Decidable (antiDiagWonBy b p) := by
  unfold antiDiagWonBy; infer_instance

instance (b : Board) (p : Square) : Decidable (wonBy b p) := by
  unfold wonBy; infer_instance

/-- Modelled from the spec: scan all rows low-to-high, then all columns
low-to-high, then the main diagonal, then the anti-diagonal, and return the
mark of the first fully-marked line found.  This is the scan order the spec
text describes (the code interleaves row `i` and column `i` instead). -/
def spec_order_winner (b : Board) : Option Square :=
  firstSome ((List.range SQUARES).findSome? (fun r => line_winner b rowLam r))
    (firstSome ((List.range SQUARES).findSome? (fun c => line_winner b colLam c))
      (firstSome (line_winner b diagLam 0) (line_winner b antiLam 0)))

/-- The x pixel coordinate of the left edge of the on-screen rectangle of the
cell in column `col` (from the render loop of `main`:
`PLAYING_AREA_OFFSET + SQUARE_SIZE * i`). -/
def cell_rect_x (col : Nat) : Int := ((PLAYING_AREA_OFFSET + SQUARE_SIZE * col : Nat) : Int)

/-- The pixel point at the center of the on-screen rectangle of cell `idx`
(the cell drawn at grid column `idx % SQUARES`, grid row `idx / SQUARES`). -/
def cell_center (idx : Nat) : Int × Int :=
  (cell_rect_x (idx % SQUARES) + ((SQUARE_SIZE / 2 : Nat) : Int),
   cell_rect_x (idx / SQUARES) + ((SQUARE_SIZE / 2 : Nat) : Int))

/-- Fold a list of clicks through the click handler, starting from a state. -/
def playClicks : List (Int × Int) → GameState → GameState
  | [], s => s
  | (x, y) :: rest, s => playClicks rest (applyClick x y s)

/-- The number of successful (non-rejected) placements performed by a list of
clicks: a click succeeds when it lands on a cell and that cell is `Empty`. -/
def countSuccesses : List (Int × Int) → GameState → Nat
  | [], _ => 0
  | (x, y) :: rest, s =>
    (match get_square_from_coords x y with
     | some sq => if s.squares.getD sq Square.Empty = Square.Empty then 1 else 0
     | none => 0) + countSuccesses rest (applyClick x y s)

/-- A board whose first row is all `X` and second row all `O` (both lines are
complete, for different players); remaining cells empty. -/
def twoWinnerBoard : Board :=
  [Square.X, Square.X, Square.X, Square.X,
   Square.O, Square.O, Square.O, Square.O] ++ List.replicate 8 Square.Empty

/-- A board whose first row is all `X`; remaining cells empty. -/
def topRowBoard : Board :=
  [Square.X, Square.X, Square.X, Square.X] ++ List.replicate 12 Square.Empty

/-! Facts about the layout constants. -/

theorem PLAYING_AREA_OFFSET_eq : PLAYING_AREA_OFFSET = 40 := rfl

theorem SQUARE_SIZE_eq : SQUARE_SIZE = 150 := rfl

theorem SQUARES_eq : SQUARES = 4 := rfl

/-- Numeral form of `get_square_from_coords` (all layout constants unfolded). -/
theorem get_square_from_coords_eq (x y : Int) :
    get_square_from_coords x y =
      if x - 40 ≤ 0 ∨ y - 40 ≤ 0 ∨ 600 ≤ x - 40 ∨ 600 ≤ y - 40 then none
      else some ((y - 40).toNat / 150 * 4 + (x - 40).toNat / 150) := rfl

/-- Any index produced by `get_square_from_coords` is a valid board index. -/
theorem get_square_from_coords_lt {x y : Int} {sq : Nat}
    (h : get_square_from_coords x y = some sq) : sq < SQUARES * SQUARES := by
  rw [get_square_from_coords_eq] at h
  split at h
  · simp at h
  · simp only [Option.some.injEq] at h
    subst h
    rename_i hcond
    push_neg at hcond
    show _ < 16
    omega

/-- Claim C6: `coordinates_to_cell_index` (i.e. `get_square_from_coords`)
returns `none` exactly when either playing-area-relative coordinate lies
outside the half-open range `(0, SQUARE_SIZE * SQUARES)` (strict lower bound
excluding the boundary line, exclusive upper bound at the area edge);
otherwise it returns `some (row * SQUARES + col)` where `col` and `row` are
the relative x and y coordinates divided by the per-cell size with flooring
integer division.  In particular a click at pixel `(0, 0)` returns `none`. -/
theorem claim_C6 (x y : Int) :
    (get_square_from_coords x y = none ↔
      ¬(0 < x - (PLAYING_AREA_OFFSET : Int) ∧
        x - (PLAYING_AREA_OFFSET : Int) < ((SQUARE_SIZE * SQUARES : Nat) : Int) ∧
        0 < y - (PLAYING_AREA_OFFSET : Int) ∧
        y - (PLAYING_AREA_OFFSET : Int) < ((SQUARE_SIZE * SQUARES : Nat) : Int))) ∧
    ((0 < x - (PLAYING_AREA_OFFSET : Int) ∧
      x - (PLAYING_AREA_OFFSET : Int) < ((SQUARE_SIZE * SQUARES : Nat) : Int) ∧
      0 < y - (PLAYING_AREA_OFFSET : Int) ∧
      y - (PLAYING_AREA_OFFSET : Int) < ((SQUARE_SIZE * SQUARES : Nat) : Int)) →
      get_square_from_coords x y =
        some ((y - (PLAYING_AREA_OFFSET : Int)).toNat / SQUARE_SIZE * SQUARES +
          (x - (PLAYING_AREA_OFFSET : Int)).toNat / SQUARE_SIZE)) ∧
    get_square_from_coords 0 0 = none := by
  refine ⟨?_, ?_, by decide⟩
  · rw [get_square_from_coords_eq]
    simp only [PLAYING_AREA_OFFSET_eq, SQUARE_SIZE_eq, SQUARES_eq]
    split
    · rename_i hcond
      simp only [true_iff]
      push_cast
      omega
    · rename_i hcond
      push_neg at hcond
      simp only [reduceCtorEq, false_iff, not_not]
      push_cast
      omega
  · intro hin
    rw [get_square_from_coords_eq]
    simp only [PLAYING_AREA_OFFSET_eq, SQUARE_SIZE_eq, SQUARES_eq] at hin ⊢
    push_cast at hin
    rw [if_neg (by omega)]
    norm_num

/-- Witness for claim C6: the in-range branch evaluated at pixel `(115, 115)`
(inside cell 0). -/
theorem claim_C6_witness :
    get_square_from_coords 115 115 =
      some (((115 : Int) - (PLAYING_AREA_OFFSET : Int)).toNat / SQUARE_SIZE * SQUARES +
        ((115 : Int) - (PLAYING_AREA_OFFSET : Int)).toNat / SQUARE_SIZE) :=
  (claim_C6 115 115).2.1 (by decide)

/-- Claim C7: round-trip of the coordinate mapping — for every valid cell
index, the pixel point at the center of that cell's on-screen rectangle maps
back to the same index under `get_square_from_coords`. -/
theorem claim_C7 : ∀ idx, idx < SQUARES * SQUARES →
    get_square_from_coords (cell_center idx).1 (cell_center idx).2 = some idx := by
  decide

/-- Witness for claim C7 at cell index 5. -/
theorem claim_C7_witness :
    get_square_from_coords (cell_center 5).1 (cell_center 5).2 = some 5 :=
  claim_C7 5 (by decide)

/-- Claim C8: whenever `get_square_from_coords` returns `some idx`, the index
is strictly below `SQUARES * SQUARES`, so the board indexing done with it in
the click handler is in bounds. -/
theorem claim_C8 (x y : Int) (idx : Nat) (h : get_square_from_coords x y = some idx) :
    idx < SQUARES * SQUARES :=
  get_square_from_coords_lt h

/-- Witness for claim C8 at pixel `(115, 115)`, which maps to cell 0. -/
theorem claim_C8_witness :
    get_square_from_coords 115 115 = some 0 ∧ 0 < SQUARES * SQUARES :=
  ⟨by decide, claim_C8 115 115 0 (by decide)⟩

/-- Claim C4: applying a move to an occupied (non-`Empty`) cell leaves the
whole game state — board and turn — exactly as it was. -/
theorem claim_C4 (s : GameState) (square : Nat)
    (h : s.squares.getD square Square.Empty ≠ Square.Empty) :
    apply_move square s = s := by
  unfold apply_move
  rw [if_neg h]

/-- Witness for claim C4: rejecting a move on an occupied single-cell board. -/
theorem claim_C4_witness :
    apply_move 0 ⟨none, [Square.X], true⟩ = ⟨none, [Square.X], true⟩ :=
  claim_C4 ⟨none, [Square.X], true⟩ 0 (by decide)

/-! Board update helpers. -/

theorem getD_set_self (l : List Square) (n : Nat) (a : Square) (h : n < l.length) :
    (l.set n a).getD n Square.Empty = a := by
  simp [List.getD_eq_getElem?_getD, List.getElem?_set_self h]

theorem getD_set_ne (l : List Square) (m n : Nat) (a : Square) (h : m ≠ n) :
    (l.set m a).getD n Square.Empty = l.getD n Square.Empty := by
  simp [List.getD_eq_getElem?_getD, List.getElem?_set_ne h]

theorem apply_move_length (square : Nat) (s : GameState) :
    (apply_move square s).squares.length = s.squares.length := by
  unfold apply_move
  split
  · simp
  · rfl

theorem applyClick_length (x y : Int) (s : GameState) :
    (applyClick x y s).squares.length = s.squares.length := by
  unfold applyClick
  cases get_square_from_coords x y with
  | none => rfl
  | some sq => exact apply_move_length sq s

theorem playClicks_length (clicks : List (Int × Int)) : ∀ s : GameState,
    (playClicks clicks s).squares.length = s.squares.length := by
  induction clicks with
  | nil => intro s; rfl
  | cons c rest ih =>
    obtain ⟨x, y⟩ := c
    intro s
    show (playClicks rest (applyClick x y s)).squares.length = _
    rw [ih (applyClick x y s), applyClick_length]

/-- The turn flag after a sequence of clicks flips once per successful
placement: it equals the initial flag iff the number of successes is even. -/
theorem playClicks_turn (clicks : List (Int × Int)) : ∀ s : GameState,
    (playClicks clicks s).turn =
      (if countSuccesses clicks s % 2 = 0 then s.turn else !s.turn) := by
  induction clicks with
  | nil => intro s; simp [playClicks, countSuccesses]
  | cons c rest ih =>
    obtain ⟨x, y⟩ := c
    intro s
    show (playClicks rest (applyClick x y s)).turn = _
    rw [ih (applyClick x y s)]
    have hcount : countSuccesses ((x, y) :: rest) s =
        (match get_square_from_coords x y with
         | some sq => if s.squares.getD sq Square.Empty = Square.Empty then 1 else 0
         | none => 0) + countSuccesses rest (applyClick x y s) := rfl
    rw [hcount]
    cases hc : get_square_from_coords x y with
    | none =>
      have hsame : applyClick x y s = s := by unfold applyClick; rw [hc]
      simp [hsame]
    | some sq =>
      by_cases he : s.squares.getD sq Square.Empty = Square.Empty
      · have hturn : (applyClick x y s).turn = !s.turn := by
          unfold applyClick apply_move
          rw [hc]
          simp only [he, if_pos]
        rw [hturn]
        simp only [hc, he, if_pos]
        by_cases hk : countSuccesses rest (applyClick x y s) % 2 = 0
        · rw [if_pos hk, if_neg (by omega)]
        · rw [if_neg hk, if_pos (by omega)]
          simp
      · have hsame : applyClick x y s = s := by
          unfold applyClick apply_move
          rw [hc]
          simp only [he, if_neg]
          rfl
        simp only [hc, he, if_neg, hsame]
        simp

/-- Claim C5: starting from the initial state, after `k` successful
(non-rejected) placements the next successful placement puts down PlayerA's
mark (`X`) if `k` is even and PlayerB's mark (`O`) if `k` is odd: here
`clicks` is any click sequence containing `k` successes, and `(x, y)` is a
further click that succeeds (lands on a cell that is still `Empty`). -/
theorem claim_C5 (clicks : List (Int × Int)) (x y : Int) (sq : Nat)
    (hxy : get_square_from_coords x y = some sq)
    (hemp : (playClicks clicks GameState.default).squares.getD sq Square.Empty = Square.Empty) :
    (applyClick x y (playClicks clicks GameState.default)).squares.getD sq Square.Empty =
      (if countSuccesses clicks GameState.default % 2 = 0 then Square.X else Square.O) := by
  have hlen : (playClicks clicks GameState.default).squares.length = SQUARES * SQUARES := by
    rw [playClicks_length]
    simp [GameState.default]
  have hsq : sq < (playClicks clicks GameState.default).squares.length := by
    rw [hlen]
    exact get_square_from_coords_lt hxy
  have hturn := playClicks_turn clicks GameState.default
  have happ : applyClick x y (playClicks clicks GameState.default) =
      apply_move sq (playClicks clicks GameState.default) := by
    unfold applyClick
    rw [hxy]
  rw [happ]
  unfold apply_move
  rw [if_pos hemp]
  show ((playClicks clicks GameState.default).squares.set sq _).getD sq Square.Empty = _
  rw [getD_set_self _ _ _ hsq, hturn]
  by_cases hk : countSuccesses clicks GameState.default % 2 = 0
  · rw [if_pos hk, if_pos hk]
    rfl
  · rw [if_neg hk, if_neg hk]
    rfl

/-- Witness for claim C5: with no prior clicks (zero successes), a click at
the center of cell 0 places PlayerA's mark `X`. -/
theorem claim_C5_witness :
    get_square_from_coords 115 115 = some 0 ∧
    (playClicks [] GameState.default).squares.getD 0 Square.Empty = Square.Empty ∧
    (applyClick 115 115 (playClicks [] GameState.default)).squares.getD 0 Square.Empty =
      (if countSuccesses [] GameState.default % 2 = 0 then Square.X else Square.O) :=
  ⟨by decide, by decide, claim_C5 [] 115 115 0 (by decide) (by decide)⟩

/-! Persistence of placed marks. -/

/-- One click dispatch never changes a non-`Empty` cell. -/
theorem applyClick_getD_preserve (x y : Int) (s : GameState) (i : Nat)
    (hi : s.squares.getD i Square.Empty ≠ Square.Empty) :
    (applyClick x y s).squares.getD i Square.Empty = s.squares.getD i Square.Empty := by
  unfold applyClick
  cases hc : get_square_from_coords x y with
  | none => rfl
  | some sq =>
    show (apply_move sq s).squares.getD i Square.Empty = _
    unfold apply_move
    split
    · rename_i he
      have hne : sq ≠ i := fun h => hi (h ▸ he)
      show (s.squares.set sq _).getD i Square.Empty = _
      exact getD_set_ne _ _ _ _ hne
    · rfl

/-- The event dispatch loop never changes a non-`Empty` cell (when it does not
terminate the program). -/
theorem processEvents_getD_preserve (events : List Event) : ∀ (g g' : GameState),
    processEvents events g = some g' →
    ∀ i, g.squares.getD i Square.Empty ≠ Square.Empty →
      g'.squares.getD i Square.Empty = g.squares.getD i Square.Empty := by
  induction events with
  | nil =>
    intro g g' h i _
    simp only [processEvents, Option.some.injEq] at h
    rw [← h]
  | cons e rest ih =>
    intro g g' h i hi
    cases e with
    | Quit => exact absurd h (by simp [processEvents])
    | KeyEscape => exact absurd h (by simp [processEvents])
    | LeftClick x y =>
      have h' : processEvents rest (applyClick x y g) = some g' := h
      have hkeep := applyClick_getD_preserve x y g i hi
      have hi' : (applyClick x y g).squares.getD i Square.Empty ≠ Square.Empty := by
        rw [hkeep]; exact hi
      rw [ih (applyClick x y g) g' h' i hi', hkeep]
    | Other =>
      exact ih g g' h i hi

/-- The outcome check only touches `freeze_until`, never the board. -/
theorem endgameCheck_squares (now : Nat) (s : GameState) :
    (endgameCheck now s).squares = s.squares := by
  unfold endgameCheck
  cases hw : get_winner s.squares with
  | some w => rfl
  | none =>
    split
    · rfl
    · split
      · rfl
      · rfl

/-- Claim C9: write-once monotonicity of cells.  (1) A single click dispatch
either leaves the board unchanged or changes exactly one cell, which was
`Empty`, to the current player's mark; (2) the Active-phase event dispatch
loop never changes a non-`Empty` cell; (3) a whole Active-phase tick never
changes a non-`Empty` cell — a placed mark persists until the board is reset
by the Frozen-phase expiry. -/
theorem claim_C9 :
    (∀ (x y : Int) (s : GameState),
      (applyClick x y s).squares = s.squares ∨
      ∃ j, j < s.squares.length ∧ s.squares.getD j Square.Empty = Square.Empty ∧
        (applyClick x y s).squares =
          s.squares.set j (if s.turn then Square.X else Square.O)) ∧
    (∀ (events : List Event) (g g' : GameState), processEvents events g = some g' →
      ∀ i, g.squares.getD i Square.Empty ≠ Square.Empty →
        g'.squares.getD i Square.Empty = g.squares.getD i Square.Empty) ∧
    (∀ (now : Nat) (arrivals : List Event) (ls ls' : LoopState),
      ls.game.freeze_until = none → tick now arrivals ls = some ls' →
      ∀ i, ls.game.squares.getD i Square.Empty ≠ Square.Empty →
        ls'.game.squares.getD i Square.Empty = ls.game.squares.getD i Square.Empty) := by
  refine ⟨?_, processEvents_getD_preserve, ?_⟩
  · intro x y s
    cases hc : get_square_from_coords x y with
    | none =>
      have hsame : applyClick x y s = s := by unfold applyClick; rw [hc]
      exact Or.inl (by rw [hsame])
    | some sq =>
      have happ : applyClick x y s = apply_move sq s := by unfold applyClick; rw [hc]
      rw [happ]
      unfold apply_move
      split
      · rename_i he
        by_cases hlt : sq < s.squares.length
        · exact Or.inr ⟨sq, hlt, he, rfl⟩
        · exact Or.inl (List.set_eq_of_length_le (by omega))
      · exact Or.inl rfl
  · intro now arrivals ls ls' hfreeze htick i hi
    unfold tick at htick
    rw [hfreeze] at htick
    cases hpe : processEvents (ls.queue ++ arrivals) ls.game with
    | none => rw [hpe] at htick; exact absurd htick (by simp)
    | some g =>
      rw [hpe] at htick
      simp only [Option.some.injEq] at htick
      rw [← htick]
      show (endgameCheck now g).squares.getD i Square.Empty = _
      rw [endgameCheck_squares]
      exact processEvents_getD_preserve _ _ _ hpe i hi

/-- Witness for claim C9: dispatching a click on cell 1 preserves the mark
already present on cell 0. -/
theorem claim_C9_witness :
    (processEvents [Event.LeftClick 265 115]
        ⟨none, (List.replicate 16 Square.Empty).set 0 Square.X, true⟩ : Option GameState) =
      some ⟨none, ((List.replicate 16 Square.Empty).set 0 Square.X).set 1 Square.X, false⟩ ∧
    (⟨none, ((List.replicate 16 Square.Empty).set 0 Square.X).set 1 Square.X, false⟩ :
        GameState).squares.getD 0 Square.Empty =
      (⟨none, (List.replicate 16 Square.Empty).set 0 Square.X, true⟩ :
        GameState).squares.getD 0 Square.Empty :=
  ⟨by decide, claim_C9.2.1 [Event.LeftClick 265 115] _ _ (by decide) 0 (by decide)⟩

/-- Claim C10: (1) on a tick that starts Frozen with an unexpired deadline,
the whole pending event queue — quit and escape events included — is drained
with no effect: the game state is unchanged and the program does not
terminate; (2) the program terminates (`tick` returns `none`) only on a tick
whose phase is Active (`freeze_until = none`). -/
theorem claim_C10 :
    (∀ (now : Nat) (arrivals : List Event) (ls : LoopState) (t : Nat),
      ls.game.freeze_until = some t → ¬ t < now →
      tick now arrivals ls = some ⟨ls.game, []⟩) ∧
    (∀ (now : Nat) (arrivals : List Event) (ls : LoopState),
      tick now arrivals ls = none → ls.game.freeze_until = none) := by
  constructor
  · intro now arrivals ls t hf hexp
    unfold tick
    rw [hf]
    simp only [if_neg hexp]
  · intro now arrivals ls h
    cases hf : ls.game.freeze_until with
    | none => rfl
    | some t =>
      exfalso
      have htick : tick now arrivals ls =
          (if t < now then some (⟨GameState.default, ls.queue ++ arrivals⟩ : LoopState)
           else some ⟨ls.game, []⟩) := by
        unfold tick
        rw [hf]
      rw [htick] at h
      split at h
      · exact Option.noConfusion h
      · exact Option.noConfusion h

/-- Witness for claim C10: a frozen state at time 3 with deadline 5 survives a
pending `Quit` event, and a terminating tick starts from an Active state. -/
theorem claim_C10_witness :
    tick 3 [Event.Quit] ⟨⟨some 5, List.replicate 16 Square.Empty, true⟩, []⟩ =
      some ⟨⟨some 5, List.replicate 16 Square.Empty, true⟩, []⟩ ∧
    (⟨GameState.default, []⟩ : LoopState).game.freeze_until = none :=
  ⟨claim_C10.1 3 [Event.Quit] ⟨⟨some 5, List.replicate 16 Square.Empty, true⟩, []⟩ 5 rfl
      (by decide),
    claim_C10.2 0 [Event.Quit] ⟨GameState.default, []⟩ (by decide)⟩

/-- Claim C3 (evaluation at the failing input): the claim says that every tick
starting in the Frozen phase discards all pending input — including on the
tick where the deadline has expired — so that no freeze-window click can reach
the new game's board.  The code violates this: on the expiry tick the queue is
NOT polled, the state is reset, and the pending freeze-window click is still
queued; on the next (Active) tick it is dispatched and marks cell 0 of the
fresh board. -/
theorem claim_C3_eval :
    tick 6 [Event.LeftClick 115 115] ⟨⟨some 5, List.replicate 16 Square.X, true⟩, []⟩ =
      some ⟨GameState.default, [Event.LeftClick 115 115]⟩ ∧
    tick 7 [] ⟨GameState.default, [Event.LeftClick 115 115]⟩ =
      some ⟨⟨none, (List.replicate 16 Square.Empty).set 0 Square.X, false⟩, []⟩ ∧
    ((List.replicate 16 Square.Empty).set 0 Square.X).getD 0 Square.Empty ≠ Square.Empty :=
  ⟨by decide, by decide, by decide⟩

/-! Characterizing the line scan. -/

/-- Characterization: `line_winner` returns `some p` exactly when every cell of the scanned line
holds the non-`Empty` mark `p`. -/
theorem line_winner_eq_some_iff (b : Board) (f : Nat → Nat → Nat × Nat) (c : Nat) (p : Square) :
    line_winner b f c = some p ↔
      (p ≠ Square.Empty ∧
        ∀ i, i < SQUARES → get_square_flatten_index b (f c i).1 (f c i).2 = p) := by
  unfold line_winner
  split_ifs with h1 h2
  · constructor
    · intro h
      exact absurd h (by simp)
    · rintro ⟨hp, hall⟩
      have h0 := hall 0 (by decide)
      rw [h0] at h1
      exact absurd h1 hp
  · constructor
    · intro h
      have hpe : get_square_flatten_index b (f c 0).1 (f c 0).2 = p :=
        Option.some.inj h
      refine ⟨by rw [← hpe]; exact h1, ?_⟩
      intro i hi
      rcases Nat.eq_zero_or_pos i with h0 | h0
      · rw [h0]
        exact hpe
      · rw [h2 i hi h0]
        exact hpe
    · rintro ⟨hp, hall⟩
      have h0 := hall 0 (by decide)
      rw [h0]
  · constructor
    · intro h
      exact absurd h (by simp)
    · rintro ⟨hp, hall⟩
      exfalso
      apply h2
      intro i hi _
      rw [hall i hi, hall 0 (by decide)]

theorem line_winner_row_iff (b : Board) (r : Nat) (p : Square) :
    line_winner b rowLam r = some p ↔ (p ≠ Square.Empty ∧ rowWonBy b r p) := by
  rw [line_winner_eq_some_iff]
  unfold rowLam rowWonBy
  constructor
  · rintro ⟨hp, h⟩
    exact ⟨hp, fun i hi => h i hi⟩
  · rintro ⟨hp, h⟩
    exact ⟨hp, fun i hi => h i hi⟩

theorem line_winner_col_iff (b : Board) (c : Nat) (p : Square) :
    line_winner b colLam c = some p ↔ (p ≠ Square.Empty ∧ colWonBy b c p) := by
  rw [line_winner_eq_some_iff]
  unfold colLam colWonBy
  constructor
  · rintro ⟨hp, h⟩
    exact ⟨hp, fun i hi => h i hi⟩
  · rintro ⟨hp, h⟩
    exact ⟨hp, fun i hi => h i hi⟩

theorem line_winner_diag_iff (b : Board) (p : Square) :
    line_winner b diagLam 0 = some p ↔ (p ≠ Square.Empty ∧ diagWonBy b p) := by
  rw [line_winner_eq_some_iff]
  unfold diagLam diagWonBy
  constructor
  · rintro ⟨hp, h⟩
    exact ⟨hp, fun i hi => h i hi⟩
  · rintro ⟨hp, h⟩
    exact ⟨hp, fun i hi => h i hi⟩

theorem line_winner_anti_iff (b : Board) (p : Square) :
    line_winner b antiLam 0 = some p ↔ (p ≠ Square.Empty ∧ antiDiagWonBy b p) := by
  rw [line_winner_eq_some_iff]
  unfold antiLam antiDiagWonBy
  constructor
  · rintro ⟨hp, h⟩
    exact ⟨hp, fun i hi => h i hi⟩
  · rintro ⟨hp, h⟩
    exact ⟨hp, fun i hi => h i hi⟩

/-! Facts about firstSome. -/

theorem firstSome_some (a : Square) (b : Option Square) : firstSome (some a) b = some a := rfl

theorem firstSome_none (b : Option Square) : firstSome none b = b := rfl

theorem firstSome_none_right (a : Option Square) : firstSome a none = a := by
  cases a <;> rfl

theorem firstSome_assoc (a b c : Option Square) :
    firstSome (firstSome a b) c = firstSome a (firstSome b c) := by
  cases a <;> rfl

theorem firstSome_eq_none_iff (a b : Option Square) :
    firstSome a b = none ↔ a = none ∧ b = none := by
  cases a <;> simp [firstSome]

/-- Soundness: `get_winner` only reports marks that fully occupy a line. -/
theorem get_winner_sound (b : Board) (p : Square) (h : get_winner b = some p) :
    p ≠ Square.Empty ∧ wonBy b p := by
  unfold get_winner at h
  cases h1 : (List.range SQUARES).findSome?
      (fun i => STRAIGHT_LINE_LAMBDAS.findSome? (fun lam => line_winner b lam i)) with
  | some w =>
    rw [h1, firstSome_some] at h
    have hwp : w = p := Option.some.inj h
    subst hwp
    obtain ⟨i, hi, hline⟩ := List.exists_of_findSome?_eq_some h1
    obtain ⟨lam, hlam, hlw⟩ := List.exists_of_findSome?_eq_some hline
    have hi4 : i < SQUARES := List.mem_range.mp hi
    simp only [STRAIGHT_LINE_LAMBDAS, List.mem_cons, List.not_mem_nil, or_false] at hlam
    rcases hlam with hlam | hlam
    · subst hlam
      have hc := (line_winner_row_iff b i w).mp hlw
      exact ⟨hc.1, Or.inl ⟨i, hi4, hc.2⟩⟩
    · subst hlam
      have hc := (line_winner_col_iff b i w).mp hlw
      exact ⟨hc.1, Or.inr (Or.inl ⟨i, hi4, hc.2⟩)⟩
  | none =>
    rw [h1, firstSome_none] at h
    obtain ⟨lam, hlam, hlw⟩ := List.exists_of_findSome?_eq_some h
    simp only [DIAGONAL_LINE_LAMBDAS, List.mem_cons, List.not_mem_nil, or_false] at hlam
    rcases hlam with hlam | hlam
    · subst hlam
      have hc := (line_winner_diag_iff b p).mp hlw
      exact ⟨hc.1, Or.inr (Or.inr (Or.inl hc.2))⟩
    · subst hlam
      have hc := (line_winner_anti_iff b p).mp hlw
      exact ⟨hc.1, Or.inr (Or.inr (Or.inr hc.2))⟩

/-- If some line is fully occupied by a non-`Empty` mark, `get_winner`
reports a winner. -/
theorem get_winner_complete (b : Board) (p : Square) (hp : p ≠ Square.Empty)
    (hw : wonBy b p) : ∃ q, get_winner b = some q := by
  cases hgw : get_winner b with
  | some q => exact ⟨q, rfl⟩
  | none =>
    exfalso
    unfold get_winner at hgw
    rw [firstSome_eq_none_iff] at hgw
    obtain ⟨hstraight, hdiag⟩ := hgw
    rw [List.findSome?_eq_none_iff] at hstraight hdiag
    rcases hw with ⟨r, hr, hrow⟩ | ⟨c, hc, hcol⟩ | hdg | hanti
    · have hin := hstraight r (List.mem_range.mpr hr)
      rw [List.findSome?_eq_none_iff] at hin
      have hnone := hin rowLam (by simp [STRAIGHT_LINE_LAMBDAS])
      have hsome := (line_winner_row_iff b r p).mpr ⟨hp, hrow⟩
      rw [hsome] at hnone
      exact Option.noConfusion hnone
    · have hin := hstraight c (List.mem_range.mpr hc)
      rw [List.findSome?_eq_none_iff] at hin
      have hnone := hin colLam (by simp [STRAIGHT_LINE_LAMBDAS])
      have hsome := (line_winner_col_iff b c p).mpr ⟨hp, hcol⟩
      rw [hsome] at hnone
      exact Option.noConfusion hnone
    · have hnone := hdiag diagLam (by simp [DIAGONAL_LINE_LAMBDAS])
      have hsome := (line_winner_diag_iff b p).mpr ⟨hp, hdg⟩
      rw [hsome] at hnone
      exact Option.noConfusion hnone
    · have hnone := hdiag antiLam (by simp [DIAGONAL_LINE_LAMBDAS])
      have hsome := (line_winner_anti_iff b p).mpr ⟨hp, hanti⟩
      rw [hsome] at hnone
      exact Option.noConfusion hnone

/-- Claim C1 (amended): `get_winner` returns `some p` only if some row, some
column, or one of the two full diagonals has every cell holding the non-`Empty`
mark `p`; and it returns a winner if and only if some such fully-marked line
exists.  (The claim's per-player biconditional fails when lines of both
players are complete at once — see the counterexample.) -/
theorem claim_C1_amended (b : Board) :
    (∀ p, get_winner b = some p → p ≠ Square.Empty ∧ wonBy b p) ∧
    ((∃ p, get_winner b = some p) ↔ ∃ p, p ≠ Square.Empty ∧ wonBy b p) := by
  refine ⟨fun p hp => get_winner_sound b p hp, ?_, ?_⟩
  · rintro ⟨p, hp⟩
    exact ⟨p, get_winner_sound b p hp⟩
  · rintro ⟨p, hp, hw⟩
    exact get_winner_complete b p hp hw

/-- Counterexample for claim C1 as stated: on the board whose first row is all
`X` and whose second row is all `O`, the biconditional "`get_winner` returns
`some p` iff some line is entirely `p`" fails at `p = O`: row 1 is entirely
`O`, but `get_winner` returns `some X`. -/
theorem claim_C1_counterexample :
    ¬ (∀ (b : Board) (p : Square),
        get_winner b = some p ↔ (p ≠ Square.Empty ∧ wonBy b p)) := by
  intro h
  have hO := (h twoWinnerBoard Square.O).mpr (by decide)
  exact absurd hO (by decide)

/-- Witness for claim C1 (amended): on the board with a full `X` top row the
soundness direction applies with its hypothesis discharged by evaluation. -/
theorem claim_C1_witness : Square.X ≠ Square.Empty ∧ wonBy topRowBoard Square.X :=
  (claim_C1_amended topRowBoard).1 Square.X (by decide)

/-! Scan order. -/

theorem findSome?_cons_firstSome {α : Type} (f : α → Option Square) (a : α) (l : List α) :
    (a :: l).findSome? f = firstSome (f a) (l.findSome? f) := by
  rw [List.findSome?_cons]
  cases f a <;> rfl

theorem range_SQUARES_eq : List.range SQUARES = [0, 1, 2, 3] := by decide

/-- The code's scan order, written out: row 0, column 0, row 1, column 1,
row 2, column 2, row 3, column 3, main diagonal, anti-diagonal. -/
theorem get_winner_eq_chain (b : Board) :
    get_winner b =
      firstSome (line_winner b rowLam 0) (firstSome (line_winner b colLam 0)
        (firstSome (line_winner b rowLam 1) (firstSome (line_winner b colLam 1)
          (firstSome (line_winner b rowLam 2) (firstSome (line_winner b colLam 2)
            (firstSome (line_winner b rowLam 3) (firstSome (line_winner b colLam 3)
              (firstSome (line_winner b diagLam 0) (line_winner b antiLam 0))))))))) := by
  unfold get_winner
  rw [range_SQUARES_eq]
  simp only [STRAIGHT_LINE_LAMBDAS, DIAGONAL_LINE_LAMBDAS, findSome?_cons_firstSome,
    List.findSome?_nil, firstSome_none_right, firstSome_assoc]

/-- The spec's scan order, written out: rows 0-3, columns 0-3, main diagonal,
anti-diagonal. -/
theorem spec_order_winner_eq_chain (b : Board) :
    spec_order_winner b =
      firstSome (line_winner b rowLam 0) (firstSome (line_winner b rowLam 1)
        (firstSome (line_winner b rowLam 2) (firstSome (line_winner b rowLam 3)
          (firstSome (line_winner b colLam 0) (firstSome (line_winner b colLam 1)
            (firstSome (line_winner b colLam 2) (firstSome (line_winner b colLam 3)
              (firstSome (line_winner b diagLam 0) (line_winner b antiLam 0))))))))) := by
  unfold spec_order_winner
  rw [range_SQUARES_eq]
  simp only [findSome?_cons_firstSome, List.findSome?_nil, firstSome_none_right,
    firstSome_assoc]

/-- Two scans whose leading options can only disagree when one is `none` may
be exchanged. -/
theorem firstSome_swap (a b r : Option Square)
    (h : ∀ p q, a = some p → b = some q → p = q) :
    firstSome a (firstSome b r) = firstSome b (firstSome a r) := by
  cases a with
  | none => rfl
  | some p =>
    cases b with
    | none => rfl
    | some q =>
      show some p = some q
      exact congrArg some (h p q rfl rfl)

/-- A fully-marked column and a fully-marked row always intersect, so their
marks agree. -/
theorem col_row_agree (b : Board) (c r : Nat) (hc : c < SQUARES) (hr : r < SQUARES) :
    ∀ p q, line_winner b colLam c = some p → line_winner b rowLam r = some q → p = q := by
  intro p q hp hq
  rw [line_winner_col_iff] at hp
  rw [line_winner_row_iff] at hq
  have h1 := hp.2 r hr
  have h2 := hq.2 c hc
  rw [h1] at h2
  exact h2

/-- Interleaving rows and columns scans in the same order as scanning all rows
and then all columns, provided every column option agrees with every later row
option (which holds because the two lines intersect). -/
theorem chain_interleave_eq (x0 x1 x2 x3 y0 y1 y2 y3 t : Option Square)
    (h01 : ∀ p q, y0 = some p → x1 = some q → p = q)
    (h02 : ∀ p q, y0 = some p → x2 = some q → p = q)
    (h03 : ∀ p q, y0 = some p → x3 = some q → p = q)
    (h12 : ∀ p q, y1 = some p → x2 = some q → p = q)
    (h13 : ∀ p q, y1 = some p → x3 = some q → p = q)
    (h23 : ∀ p q, y2 = some p → x3 = some q → p = q) :
    firstSome x0 (firstSome y0 (firstSome x1 (firstSome y1 (firstSome x2 (firstSome y2
      (firstSome x3 (firstSome y3 t))))))) =
    firstSome x0 (firstSome x1 (firstSome x2 (firstSome x3 (firstSome y0 (firstSome y1
      (firstSome y2 (firstSome y3 t))))))) := by
  rw [firstSome_swap y0 x1 _ h01]
  rw [firstSome_swap y1 x2 _ h12]
  rw [firstSome_swap y0 x2 _ h02]
  rw [firstSome_swap y2 x3 _ h23]
  rw [firstSome_swap y1 x3 _ h13]
  rw [firstSome_swap y0 x3 _ h03]

/-- Claim C2: the winner `get_winner` returns is the mark of the first won
line in the scan order the spec describes — all rows low-to-high, then all
columns low-to-high, then the main diagonal, then the anti-diagonal.  (The
code actually interleaves row `i` with column `i`, but the two orders provably
return the same winner because a won column and a later won row intersect.) -/
theorem claim_C2 (b : Board) : get_winner b = spec_order_winner b := by
  rw [get_winner_eq_chain, spec_order_winner_eq_chain]
  exact chain_interleave_eq _ _ _ _ _ _ _ _ _
    (col_row_agree b 0 1 (by decide) (by decide))
    (col_row_agree b 0 2 (by decide) (by decide))
    (col_row_agree b 0 3 (by decide) (by decide))
    (col_row_agree b 1 2 (by decide) (by decide))
    (col_row_agree b 1 3 (by decide) (by decide))
    (col_row_agree b 2 3 (by decide) (by decide))
